import Mathlib

/-!
Shallow embedding of the `utest` unit-testing harness (brainsandwich/utest).

The repository contains `utest.h` (templates: the `compare` range overload,
the `test_op` macros, the section stack) and `utest.cc` (the fixture's
`add_result`, `setup`, `teardown`, and the suite's `runall`).  Where both
files define a symbol, `utest.cc` is the implementation that the spec and
`example.cc` match (two-argument `test_define(group, name)`, the
`printed_something` flag, the `std::vector<fixture*>` registry), so those
definitions are embedded from `utest.cc`; `compare`, the macros and the
section stack exist only in `utest.h` and are embedded from there.

Conventions of the embedding:
- C++ `int` counters become `Int`; printing becomes an explicit list of
  `Ev` output events; mutation becomes state passing on `Fixture`.
- The range overload of `compare` dereferences both iterators before any
  end-of-range check; an invalid dereference (empty operand) is undefined
  behaviour in C++ and is embedded as `Option.none`.
- `push_section` writes `sections.names[sections.current]` with no bounds
  check; an out-of-bounds write is undefined behaviour and is recorded by
  the `oob` flag of `SecState` (the write itself is dropped).
-/

namespace Utest

/-- The `verbosity` enum of `utest.h` (quiet < failures < passed < everything). -/
inductive Verbosity
  | quiet
  | failures
  | passed
  | everything
deriving DecidableEq, Repr

/-- Numeric value of a `verbosity` enumerator, as used by the C++ `<`, `>=`
comparisons on the enum. -/
def Verbosity.level : Verbosity → Nat
  | .quiet => 0
  | .failures => 1
  | .passed => 2
  | .everything => 3

/-- The scalar overload of `compare` (utest.h:96-100): delegate to the
predicate. -/
def compareScalar {α β : Type} (left : α) (right : β) (predicate : α → β → Bool) : Bool :=
  predicate left right

/-- The range overload of `compare` (utest.h:102-123).  The loop body first
dereferences `*l` and `*r` (so an empty operand is an invalid dereference,
embedded as `none`), then applies the predicate (short-circuit `some false`
on failure), advances both iterators, returns `some false` if exactly one
range is exhausted, and terminates with `some true` when both end together. -/
def compareRange {α β : Type} (predicate : α → β → Bool) :
    List α → List β → Option Bool
  | l :: ls, r :: rs =>
    if !compareScalar l r predicate then
      some false
    else
      match ls, rs with
      | [], [] => some true
      | [], _ :: _ => some false
      | _ :: _, [] => some false
      | _ :: _, _ :: _ => compareRange predicate ls rs
  | _, _ => none

/-- The section-name stack of a fixture (utest.h:165-168):
`std::array<const char*, 32> names = { "main" };` and `int current = 0;`.
The `oob` flag records that some `push_section` wrote outside the 32-slot
array (undefined behaviour in the C++). -/
structure SecState where
  names : List String
  current : Int
  oob : Bool
deriving DecidableEq, Repr

/-- Initial section stack: slot 0 holds `"main"`, the other 31 slots are
value-initialized (modelled as `""`), depth 0. -/
def initSections : SecState :=
  { names := "main" :: List.replicate 31 "", current := 0, oob := false }

/-- `sections.current++; sections.names[sections.current] = name;`
(utest.cc:59).  The write index is the incremented `current`; a write
outside `[0, 32)` sets the `oob` flag instead of touching memory. -/
def SecState.push (s : SecState) (name : String) : SecState :=
  let c := s.current + 1
  { names := if 0 ≤ c ∧ c < 32 then s.names.set c.toNat name else s.names
  , current := c
  , oob := s.oob || !decide (0 ≤ c ∧ c < 32) }

/-- Per-fixture state (utest.h:163-272 / utest.cc): section stack, the
`section_changed` and `printed_something` flags, and the `cases`,
`caseindex`, `errors` counters. -/
structure Fixture where
  sections : SecState
  section_changed : Bool
  printed_something : Bool
  cases : Int
  caseindex : Int
  errors : Int
deriving DecidableEq, Repr

/-- A fixture as constructed: fresh section stack, `section_changed = true`,
nothing printed, all counters 0. -/
def initFixture : Fixture :=
  { sections := initSections
  , section_changed := true
  , printed_something := false
  , cases := 0
  , caseindex := 0
  , errors := 0 }

/-- `fixture::push_section` (utest.cc:59): sets `section_changed` and pushes. -/
def push_section (name : String) (st : Fixture) : Fixture :=
  { st with section_changed := true, sections := st.sections.push name }

/-- `fixture::pop_section` (utest.cc:60): sets `section_changed` and
decrements the depth. -/
def pop_section (st : Fixture) : Fixture :=
  { st with section_changed := true
          , sections := { st.sections with current := st.sections.current - 1 } }

/-- `fixture::add_case` (utest.cc:61): `cases++`. -/
def add_case (st : Fixture) : Fixture :=
  { st with cases := st.cases + 1 }

/-- One emitted output line (report event).  Constructors mirror the
distinct `fmt::println`/`printf` calls of `utest.cc`; the suite's final
totals line is `summary`. -/
inductive Ev
  | blank
  | sectionHeader (path : List String)
  | hline
  | caseHeader (success : Bool) (caseindex : Int) (location : String)
  | caseExpression (op left right : String)
  | caseEvaluation (left right : String)
  | setupLine (group name : String)
  | teardownLongPassed (group name : String) (passed total : Int)
  | teardownLongFailed (group name : String) (passed total errors : Int)
  | teardownShortPassed (passed total : Int)
  | teardownShortFailed (passed total : Int)
  | summary (numtests numpassed numcases numcasespassed : Int)
deriving DecidableEq, Repr

/-- `fixture::print_section` (utest.cc:63-73): if `section_changed` is
still set, clear it and print the joined path `names[0..current]` followed
by a horizontal line; otherwise print nothing. -/
def print_section (st : Fixture) : Fixture × List Ev :=
  if !st.section_changed then
    (st, [])
  else
    ({ st with section_changed := false }
    , [Ev.sectionHeader (st.sections.names.take (st.sections.current + 1).toNat), Ev.hline])

/-- `fixture::add_result` (utest.cc:96-127).  Increments `errors` on
failure; above `quiet`, when the case fails or verbosity is at least
`passed`, prints the one-time first-report blank line, the (memoized)
section header, a blank line before failures, the case header, and — when
the case fails or verbosity is `everything` — the expression and
evaluation detail lines; finally always advances `caseindex`. -/
def add_result (v : Verbosity) (success : Bool)
    (location op left_expression right_expression left_evaluated right_evaluated : String)
    (st : Fixture) : Fixture × List Ev :=
  let st := if !success then { st with errors := st.errors + 1 } else st
  let (st, evs) :=
    if Verbosity.quiet.level < v.level then
      if !success || decide (Verbosity.passed.level ≤ v.level) then
        let (st, evFirst) :=
          if !st.printed_something then
            ({ st with printed_something := true }, [Ev.blank])
          else (st, [])
        let (st, evSection) := print_section st
        let evPre := if !success then [Ev.blank] else []
        let evHeader := [Ev.caseHeader success st.caseindex location]
        let evDetail :=
          if !success || decide (Verbosity.everything.level ≤ v.level) then
            [Ev.caseExpression op left_expression right_expression
            , Ev.caseEvaluation left_evaluated right_evaluated
            , Ev.blank]
          else []
        (st, evFirst ++ evSection ++ evPre ++ evHeader ++ evDetail)
      else (st, [])
    else (st, [])
  ({ st with caseindex := st.caseindex + 1 }, evs)

/-- `fixture::setup` (utest.cc:18-23): announce the fixture when verbosity
is above `quiet`. -/
def setup (v : Verbosity) (group name : String) : List Ev :=
  if Verbosity.quiet.level < v.level then [Ev.setupLine group name] else []

/-- `fixture::teardown` (utest.cc:24-57): unconditionally (no verbosity
gate) print the long pass/fail line with `group.name` when the fixture
printed something, else the short ` -> passed/failed` line. -/
def teardown (group name : String) (st : Fixture) : List Ev :=
  if st.printed_something then
    if st.errors == 0 then
      [Ev.teardownLongPassed group name (st.cases - st.errors) st.cases]
    else
      [Ev.teardownLongFailed group name (st.cases - st.errors) st.cases st.errors]
  else
    if st.errors == 0 then
      [Ev.teardownShortPassed (st.cases - st.errors) st.cases]
    else
      [Ev.teardownShortFailed (st.cases - st.errors) st.cases]

/-- The body of a fixture, as the structure of the `test_op` / `test_section`
macros produces it: a sequence of assertions (each carrying the outcome of
its `compare` call together with the stringified location, operator,
expressions and values) and scoped sections. -/
inductive Stmt
  | skip
  | seq (a b : Stmt)
  | assert (success : Bool) (location op le re lv rv : String)
  | sect (name : String) (body : Stmt)
deriving DecidableEq, Repr

/-- Executing a body against the current fixture.  An assertion is the
`test_op` expansion (utest.h:373-382): `add_case()` then `add_result(...)`.
A section is the RAII `utest::section` object (utest.h:276-281 /
utest.cc:131-133): `push_section` on entry, `pop_section` on scope exit. -/
def execStmt (v : Verbosity) : Stmt → Fixture → Fixture × List Ev
  | .skip, st => (st, [])
  | .seq a b, st =>
    let (st₁, e₁) := execStmt v a st
    let (st₂, e₂) := execStmt v b st₁
    (st₂, e₁ ++ e₂)
  | .assert success location op le re lv rv, st =>
    add_result v success location op le re lv rv (add_case st)
  | .sect name body, st =>
    let st₁ := push_section name st
    let (st₂, evs) := execStmt v body st₁
    (pop_section st₂, evs)

/-- A registered fixture: its group, its name (the two arguments of
`test_define`) and its body. -/
structure FixtureDef where
  group : String
  name : String
  body : Stmt
deriving DecidableEq, Repr

/-- Running one fixture's body from its freshly-constructed state. -/
def runFixture (v : Verbosity) (f : FixtureDef) : Fixture × List Ev :=
  execStmt v f.body initFixture

/-- The running totals of `suite::runall` (utest.cc:150-153). -/
structure Totals where
  numpassed : Int
  numtests : Int
  numcases : Int
  numerrors : Int
deriving DecidableEq, Repr

/-- The fixture loop of `suite::runall` (utest.cc:155-166): for each
registered fixture in order, `setup`, `run`, `teardown`, then accumulate
the totals.  Returns the final totals, the finished fixture states in
order, and the emitted events. -/
def runallLoop (v : Verbosity) (t : Totals) :
    List FixtureDef → Totals × List Fixture × List Ev
  | [] => (t, [], [])
  | f :: fs =>
    let evSetup := setup v f.group f.name
    let (st, evRun) := runFixture v f
    let evTear := teardown f.group f.name st
    let t' : Totals :=
      { numpassed := t.numpassed + (if st.errors == 0 then 1 else 0)
      , numtests := t.numtests + 1
      , numcases := t.numcases + st.cases
      , numerrors := t.numerrors + st.errors }
    let (tFinal, sts, evs) := runallLoop v t' fs
    (tFinal, st :: sts, (evSetup ++ evRun ++ evTear) ++ evs)

/-- `suite::runall` (utest.cc:148-172): run every registered fixture, print
the single totals line `"{} tests ({} passed), {} cases ({} passed)"`, and
return `numerrors`. -/
def runall (v : Verbosity) (fs : List FixtureDef) : Int × List Fixture × List Ev :=
  let (t, sts, evs) :=
    runallLoop v { numpassed := 0, numtests := 0, numcases := 0, numerrors := 0 } fs
  (t.numerrors, sts
  , evs ++ [Ev.summary t.numtests t.numpassed t.numcases (t.numcases - t.numerrors)])

/-- Number of `assert` statements in a body: the number of assertion-macro
invocations it executes. -/
def countAsserts : Stmt → Int
  | .skip => 0
  | .seq a b => countAsserts a + countAsserts b
  | .assert .. => 1
  | .sect _ b => countAsserts b

/-- Number of failing `assert` statements in a body: the number of
`add_result` calls receiving `success = false`. -/
def countFails : Stmt → Int
  | .skip => 0
  | .seq a b => countFails a + countFails b
  | .assert success .. => if success then 0 else 1
  | .sect _ b => countFails b

/-- Recognizer for the per-case one-line header event. -/
def isCaseHeader : Ev → Bool
  | .caseHeader .. => true
  | _ => false

/-- Recognizer for the operand expression / evaluated-value detail events. -/
def isDetail : Ev → Bool
  | .caseExpression .. => true
  | .caseEvaluation .. => true
  | _ => false

/-- A raw operation on the section stack. -/
inductive SecOp
  | push (name : String)
  | pop
deriving DecidableEq, Repr

/-- Apply one raw section operation to a fixture. -/
def applyOp (st : Fixture) : SecOp → Fixture
  | .push n => push_section n st
  | .pop => pop_section st

/-- Apply a sequence of raw section operations, left to right. -/
def runOps (st : Fixture) : List SecOp → Fixture
  | [] => st
  | op :: rest => runOps (applyOp st op) rest

/-- The depth stays inside `[0, 32)` after every single operation of the
sequence. -/
def depthBounded (st : Fixture) : List SecOp → Bool
  | [] => true
  | op :: rest =>
    decide (0 ≤ (applyOp st op).sections.current) &&
    decide ((applyOp st op).sections.current < 32) &&
    depthBounded (applyOp st op) rest

/-- Everything one fixture's turn prints: its `setup` announcement, its
body's report events, and its `teardown` line. -/
def perFixtureEvents (v : Verbosity) (f : FixtureDef) : List Ev :=
  setup v f.group f.name ++ (runFixture v f).2 ++ teardown f.group f.name (runFixture v f).1

/-- Sum of the error counters of the finished fixtures. -/
def totalErrors (v : Verbosity) (fs : List FixtureDef) : Int :=
  (fs.map (fun f => (runFixture v f).1.errors)).sum

/-- Sum of the case counters of the finished fixtures. -/
def totalCases (v : Verbosity) (fs : List FixtureDef) : Int :=
  (fs.map (fun f => (runFixture v f).1.cases)).sum

/-- Number of fixtures that finished with a zero error counter. -/
def countPassed (v : Verbosity) (fs : List FixtureDef) : Int :=
  (fs.map (fun f => if (runFixture v f).1.errors == 0 then 1 else 0)).sum

/-- Scenario D, fixture X: three passing assertions. -/
def scenarioX : FixtureDef :=
  ⟨"ex", "X", .seq (.assert true "l1" "==" "a" "b" "1" "1")
    (.seq (.assert true "l2" "==" "a" "b" "1" "1") (.assert true "l3" "==" "a" "b" "1" "1"))⟩

/-- Scenario D, fixture Y: five assertions, the second and the fourth
failing. -/
def scenarioY : FixtureDef :=
  ⟨"ex", "Y", .seq (.assert true "m1" "==" "a" "b" "1" "1")
    (.seq (.assert false "m2" "==" "a" "b" "1" "2")
    (.seq (.assert true "m3" "==" "a" "b" "1" "1")
    (.seq (.assert false "m4" "==" "a" "b" "1" "2") (.assert true "m5" "==" "a" "b" "1" "1"))))⟩

/-- The report-gating condition of `add_result`: a case header is printed
iff verbosity is above `quiet` and (the case failed or verbosity is at
least `passed`). -/
def reportsCase (v : Verbosity) (success : Bool) : Bool :=
  decide (Verbosity.quiet.level < v.level) &&
    (!success || decide (Verbosity.passed.level ≤ v.level))

-- ------------------------------------------------------------------
-- Helper lemmas
-- ------------------------------------------------------------------

theorem add_result_fst (v : Verbosity) (success : Bool)
    (location op le re lv rv : String) (st : Fixture) :
    (add_result v success location op le re lv rv st).1 =
      { st with
        errors := st.errors + (if success then 0 else 1)
      , caseindex := st.caseindex + 1
      , printed_something := st.printed_something || reportsCase v success
      , section_changed := st.section_changed && !reportsCase v success } := by
  obtain ⟨secs, sc, ps, c, ci, e⟩ := st
  cases success <;> cases v <;> cases sc <;> cases ps <;>
    simp [add_result, print_section, Verbosity.level, reportsCase]

theorem add_result_quiet_events (success : Bool)
    (location op le re lv rv : String) (st : Fixture) :
    (add_result .quiet success location op le re lv rv st).2 = [] := by
  cases success <;> simp [add_result, Verbosity.level]

theorem countAsserts_nonneg (s : Stmt) : 0 ≤ countAsserts s := by
  induction s <;> simp [countAsserts] <;> omega

theorem countFails_nonneg (s : Stmt) : 0 ≤ countFails s := by
  induction s with
  | skip => simp [countFails]
  | seq a b iha ihb => simp only [countFails]; omega
  | assert success _ _ _ _ _ _ => simp only [countFails]; split <;> omega
  | sect _ b ih => simpa [countFails] using ih

theorem countFails_le_countAsserts (s : Stmt) : countFails s ≤ countAsserts s := by
  induction s with
  | skip => simp [countFails, countAsserts]
  | seq a b iha ihb => simp only [countFails, countAsserts]; omega
  | assert success _ _ _ _ _ _ =>
    simp only [countFails, countAsserts]; split <;> omega
  | sect _ b ih => simpa [countFails, countAsserts] using ih

theorem exec_cases (v : Verbosity) (s : Stmt) (st : Fixture) :
    (execStmt v s st).1.cases = st.cases + countAsserts s := by
  induction s generalizing st with
  | skip => simp [execStmt, countAsserts]
  | seq a b iha ihb => simp [execStmt, countAsserts, iha, ihb]; omega
  | assert success location op le re lv rv =>
    simp [execStmt, countAsserts, add_result_fst, add_case]
  | sect name body ih =>
    simp [execStmt, countAsserts, pop_section, push_section, ih]

theorem exec_caseindex (v : Verbosity) (s : Stmt) (st : Fixture) :
    (execStmt v s st).1.caseindex = st.caseindex + countAsserts s := by
  induction s generalizing st with
  | skip => simp [execStmt, countAsserts]
  | seq a b iha ihb => simp [execStmt, countAsserts, iha, ihb]; omega
  | assert success location op le re lv rv =>
    simp [execStmt, countAsserts, add_result_fst, add_case]
  | sect name body ih =>
    simp [execStmt, countAsserts, pop_section, push_section, ih]

theorem exec_errors (v : Verbosity) (s : Stmt) (st : Fixture) :
    (execStmt v s st).1.errors = st.errors + countFails s := by
  induction s generalizing st with
  | skip => simp [execStmt, countFails]
  | seq a b iha ihb => simp [execStmt, countFails, iha, ihb]; omega
  | assert success location op le re lv rv =>
    cases success <;> simp [execStmt, countFails, add_result_fst, add_case]
  | sect name body ih =>
    simp [execStmt, countFails, pop_section, push_section, ih]

theorem exec_current (v : Verbosity) (s : Stmt) (st : Fixture) :
    (execStmt v s st).1.sections.current = st.sections.current := by
  induction s generalizing st with
  | skip => simp [execStmt]
  | seq a b iha ihb => simp [execStmt, iha, ihb]
  | assert success location op le re lv rv =>
    simp [execStmt, add_result_fst, add_case]
  | sect name body ih =>
    simp [execStmt, pop_section, push_section, SecState.push, ih]

theorem exec_quiet_events (s : Stmt) (st : Fixture) :
    (execStmt .quiet s st).2 = [] := by
  induction s generalizing st with
  | skip => simp [execStmt]
  | seq a b iha ihb => simp [execStmt, iha, ihb]
  | assert success location op le re lv rv =>
    simp [execStmt, add_result_quiet_events]
  | sect name body ih => simp [execStmt, ih]

theorem runallLoop_eq (v : Verbosity) (fs : List FixtureDef) (t : Totals) :
    runallLoop v t fs =
      ({ numpassed := t.numpassed + countPassed v fs
       , numtests := t.numtests + fs.length
       , numcases := t.numcases + totalCases v fs
       , numerrors := t.numerrors + totalErrors v fs }
      , fs.map (fun f => (runFixture v f).1)
      , (fs.map (perFixtureEvents v)).flatten) := by
  induction fs generalizing t with
  | nil => simp [runallLoop, countPassed, totalCases, totalErrors]
  | cons f fs ih =>
    simp only [runallLoop, ih, List.map_cons, List.flatten_cons, perFixtureEvents
      , countPassed, totalCases, totalErrors, List.sum_cons, List.length_cons
      , Prod.mk.injEq]
    refine ⟨?_, trivial⟩
    simp only [Totals.mk.injEq]
    refine ⟨by ring, by push_cast ; ring, by ring, by ring⟩

theorem int_sum_nonneg_eq_zero_iff (l : List Int) (h : ∀ x ∈ l, 0 ≤ x) :
    l.sum = 0 ↔ ∀ x ∈ l, x = 0 := by
  induction l with
  | nil => simp
  | cons a l ih =>
    have ha : 0 ≤ a := h a (by simp)
    have hl : ∀ x ∈ l, 0 ≤ x := fun x hx => h x (by simp [hx])
    have hsum : 0 ≤ l.sum := List.sum_nonneg hl
    simp only [List.sum_cons, List.mem_cons]
    constructor
    · intro h0
      have ha0 : a = 0 := by omega
      have hl0 : l.sum = 0 := by omega
      intro x hx
      rcases hx with rfl | hx
      · exact ha0
      · exact (ih hl).mp hl0 x hx
    · intro hall
      have : l.sum = 0 := (ih hl).mpr (fun x hx => hall x (Or.inr hx))
      have := hall a (Or.inl rfl)
      omega

theorem runFixture_errors_nonneg (v : Verbosity) (f : FixtureDef) :
    0 ≤ (runFixture v f).1.errors := by
  have h := exec_errors v f.body initFixture
  have hn := countFails_nonneg f.body
  have h0 : initFixture.errors = 0 := rfl
  simp only [runFixture]
  omega

theorem compareRange_cons_isSome {α β : Type} (p : α → β → Bool) :
    ∀ (as : List α) (a : α) (bs : List β) (b : β),
      (compareRange p (a :: as) (b :: bs)).isSome := by
  intro as
  induction as with
  | nil =>
    intro a bs b
    cases bs <;> simp only [compareRange] <;> split <;> rfl
  | cons a' as' ih =>
    intro a bs b
    cases bs with
    | nil => simp only [compareRange]; split <;> rfl
    | cons b' bs' =>
      simp only [compareRange]
      split
      · rfl
      · exact ih a' bs' b'

-- ------------------------------------------------------------------
-- Claim theorems
-- ------------------------------------------------------------------

/-- C1: `suite::runall` executes every registered fixture exactly once, in
registration order (the finished fixture states are exactly the
registration list, each run from its fresh initial state), and returns the
sum of the error counts across all fixtures; that sum is zero exactly when
every fixture finished with a zero error count (overall success). -/
theorem runall_runs_each_fixture_once_and_returns_error_sum
    (v : Verbosity) (fs : List FixtureDef) :
    (runall v fs).2.1 = fs.map (fun f => (runFixture v f).1)
    ∧ (runall v fs).1 = totalErrors v fs
    ∧ ((runall v fs).1 = 0 ↔ ∀ st ∈ (runall v fs).2.1, st.errors = 0) := by
  have h := runallLoop_eq v fs { numpassed := 0, numtests := 0, numcases := 0, numerrors := 0 }
  have h1 : (runall v fs).2.1 = fs.map (fun f => (runFixture v f).1) := by
    simp [runall, h]
  have h2 : (runall v fs).1 = totalErrors v fs := by
    simp [runall, h]
  refine ⟨h1, h2, ?_⟩
  rw [h1, h2, totalErrors]
  have hnn : ∀ x ∈ fs.map (fun f => (runFixture v f).1.errors), 0 ≤ x := by
    intro x hx
    simp only [List.mem_map] at hx
    obtain ⟨f, _, rfl⟩ := hx
    exact runFixture_errors_nonneg v f
  rw [int_sum_nonneg_eq_zero_iff _ hnn]
  constructor
  · intro hz st hst
    simp only [List.mem_map] at hst
    obtain ⟨f, hf, rfl⟩ := hst
    exact hz _ (List.mem_map_of_mem _ hf)
  · intro hz x hx
    simp only [List.mem_map] at hx
    obtain ⟨f, hf, rfl⟩ := hx
    exact hz _ (List.mem_map_of_mem _ hf)

/-- C2 counterexample: the claim predicates over *every* pair of sequences
of differing lengths, but when one operand is empty the range overload of
`compare` dereferences the end iterator before any length check (undefined
behaviour, embedded as `none`), so it does not return `false` there. -/
theorem compare_length_mismatch_counterexample :
    (([] : List Int).length ≠ ([0] : List Int).length)
    ∧ compareRange (fun a b : Int => a == b) ([] : List Int) [0] ≠ some false := by
  refine ⟨by decide, by decide⟩

/-- C2 (amended): for sequence operands of differing lengths that are both
non-empty, `compare` returns `false` for every relation. -/
theorem compare_length_mismatch_nonempty_false {α β : Type} (p : α → β → Bool)
    (A : List α) (B : List β) (hlen : A.length ≠ B.length)
    (hA : A ≠ []) (hB : B ≠ []) :
    compareRange p A B = some false := by
  revert hlen hA hB
  induction A generalizing B with
  | nil =>
    intro _ hA _
    exact absurd rfl hA
  | cons a as ih =>
    intro hlen _ hB
    cases B with
    | nil => exact absurd rfl hB
    | cons b bs =>
      cases as with
      | nil =>
        cases bs with
        | nil => simp at hlen
        | cons b' bs' =>
          simp only [compareRange]
          split <;> rfl
      | cons a' as' =>
        cases bs with
        | nil =>
          simp only [compareRange]
          split <;> rfl
        | cons b' bs' =>
          simp only [compareRange]
          split
          · rfl
          · refine ih (b' :: bs') ?_ (by simp) (by simp)
            simp only [List.length_cons] at hlen ⊢
            omega

/-- C2 witness (Scenario B of the spec): `[1,2,3]` against `[1,2]` under
the equal relation compares false. -/
theorem compare_length_mismatch_nonempty_false_witness :
    (([1, 2, 3] : List Int).length ≠ ([1, 2] : List Int).length)
    ∧ compareRange (fun a b : Int => a == b) ([1, 2, 3] : List Int) [1, 2] = some false :=
  ⟨by decide
  , compare_length_mismatch_nonempty_false (fun a b : Int => a == b) [1, 2, 3] [1, 2]
      (by decide) (by decide) (by decide)⟩

/-- C3: after a fixture's body runs, the `cases` counter equals the number
of assertion-macro invocations executed (each calls `add_case` exactly
once, independent of outcome), and the `errors` counter equals the number
of `add_result` calls that received `success = false`. -/
theorem fixture_counters_equal_assertion_and_failure_counts
    (v : Verbosity) (f : FixtureDef) :
    (runFixture v f).1.cases = countAsserts f.body
    ∧ (runFixture v f).1.errors = countFails f.body := by
  have hc := exec_cases v f.body initFixture
  have he := exec_errors v f.body initFixture
  have h1 : initFixture.cases = 0 := rfl
  have h2 : initFixture.errors = 0 := rfl
  simp only [runFixture]
  omega

/-- C4 counterexample: the claim says a quiet run of the suite emits zero
report lines, but `fixture::teardown` and the `runall` totals line are not
gated by verbosity: a quiet run of one fixture with one passing assertion
still prints the short teardown line and the summary line. -/
theorem quiet_run_emits_output_counterexample :
    (runall .quiet [⟨"example", "basic", .assert true "l" "==" "v" "w" "1" "1"⟩]).2.2
      = [Ev.teardownShortPassed 1 1, Ev.summary 1 1 1 1]
    ∧ (runall .quiet [⟨"example", "basic", .assert true "l" "==" "v" "w" "1" "1"⟩]).2.2
      ≠ [] := by
  have h1 : (runall .quiet [⟨"example", "basic", .assert true "l" "==" "v" "w" "1" "1"⟩]).2.2
      = [Ev.teardownShortPassed 1 1, Ev.summary 1 1 1 1] := rfl
  exact ⟨h1, by rw [h1]; simp⟩

/-- C4 (amended): under quiet verbosity a fixture body emits zero report
lines (`setup` and `add_result` print nothing), and the `cases`,
`caseindex` and `errors` counters end with exactly the values they have
under any other verbosity level; only the unconditional teardown line and
the final summary are still printed. -/
theorem quiet_body_silent_and_counters_verbosity_independent
    (v : Verbosity) (s : Stmt) (st : Fixture) :
    (execStmt .quiet s st).2 = []
    ∧ setup .quiet "g" "n" = []
    ∧ (execStmt .quiet s st).1.cases = (execStmt v s st).1.cases
    ∧ (execStmt .quiet s st).1.caseindex = (execStmt v s st).1.caseindex
    ∧ (execStmt .quiet s st).1.errors = (execStmt v s st).1.errors := by
  refine ⟨exec_quiet_events s st, rfl, ?_, ?_, ?_⟩ <;>
    simp [exec_cases, exec_caseindex, exec_errors]

/-- C5 counterexample: under `passed` verbosity a *failing* case does get
the operand expression and value detail lines (`add_result` prints detail
when `!success || verbosity >= everything`), contradicting the claim that
detail is omitted at `passed` and emitted only at `everything`. -/
theorem passed_verbosity_failure_detail_counterexample :
    ((add_result .passed false "loc" "==" "a" "b" "1" "2" initFixture).2.any isDetail)
      = true := by
  rfl

/-- C5 (amended): under `passed` verbosity `add_result` emits exactly one
one-line case header for every case, success or failure; the operand
expression and value detail is omitted exactly for successful cases (a
failing case gets the detail lines), and under `everything` the detail is
emitted for every case. -/
theorem passed_verbosity_header_always_detail_iff_failure
    (success : Bool) (location op le re lv rv : String) (st : Fixture) :
    ((add_result .passed success location op le re lv rv st).2.countP isCaseHeader = 1)
    ∧ ((add_result .passed success location op le re lv rv st).2.any isDetail = !success)
    ∧ ((add_result .everything success location op le re lv rv st).2.any isDetail = true) := by
  obtain ⟨secs, sc, ps, c, ci, e⟩ := st
  cases success <;> cases sc <;> cases ps <;>
    simp [add_result, print_section, Verbosity.level, isCaseHeader, isDetail]

/-- C6 counterexample (Scenario D of the spec): fixture X passes its 3
assertions and fixture Y fails 2 of its 5; `runall` does return 2, but its
complete output contains no enumeration of failing fixtures: after Y's own
teardown line the only remaining event is the single totals summary line
(`2 tests (1 passed), 8 cases (6 passed)`). -/
theorem runall_summary_no_failing_enumeration_counterexample :
    (runall .failures [scenarioX, scenarioY]).1 = 2
    ∧ (runall .failures [scenarioX, scenarioY]).2.2 =
        [Ev.setupLine "ex" "X", Ev.teardownShortPassed 3 3
        , Ev.setupLine "ex" "Y", Ev.blank, Ev.sectionHeader ["main"], Ev.hline
        , Ev.blank, Ev.caseHeader false 1 "m2", Ev.caseExpression "==" "a" "b"
        , Ev.caseEvaluation "1" "2", Ev.blank
        , Ev.blank, Ev.caseHeader false 3 "m4", Ev.caseExpression "==" "a" "b"
        , Ev.caseEvaluation "1" "2", Ev.blank
        , Ev.teardownLongFailed "ex" "Y" 3 5 2
        , Ev.summary 2 1 8 6] :=
  ⟨rfl, rfl⟩

/-- C6 (amended): after all fixtures have run, `runall` prints exactly one
final summary event carrying total tests run, total passed, total cases
and total cases passed, and nothing else: the whole output is the
per-fixture events followed by that single summary line, with no
enumeration of failing fixtures (a failing fixture is only named by its
own teardown line). -/
theorem runall_prints_totals_summary_only
    (v : Verbosity) (fs : List FixtureDef) :
    (runall v fs).2.2 =
      (fs.map (perFixtureEvents v)).flatten
        ++ [Ev.summary fs.length (countPassed v fs) (totalCases v fs)
              (totalCases v fs - totalErrors v fs)] := by
  simp [runall, runallLoop_eq]

/-- C7: executing a scoped section (the RAII `utest::section` object:
`push_section` on entry, `pop_section` on scope exit) leaves the fixture's
section-stack depth exactly as it was before the scope was entered,
regardless of the assertions and nested sections its body ran. -/
theorem section_scope_preserves_depth (v : Verbosity) (name : String)
    (body : Stmt) (st : Fixture) :
    ((execStmt v (.sect name body) st).1).sections.current = st.sections.current := by
  simp [execStmt, pop_section, push_section, SecState.push, exec_current]

/-- C8 counterexample: `push_section` performs no bounds check, so a
sequence of 32 pushes drives the depth to 32 and makes the 32nd push write
`names[32]`, outside the 32-slot array (the embedded out-of-bounds flag is
set): the claimed "depth never exceeds the fixed capacity" does not hold
for every sequence of push/pop operations. -/
theorem push_section_unbounded_counterexample :
    (runOps initFixture (List.replicate 32 (SecOp.push "s"))).sections.current = 32
    ∧ (runOps initFixture (List.replicate 32 (SecOp.push "s"))).sections.oob = true :=
  ⟨rfl, rfl⟩

/-- C8 (amended): `push_section` has no bounds check, so staying within the
32-slot `names` array is a precondition, not an enforced invariant: for
every sequence of push/pop operations that keeps the depth within
`[0, 31]` after each step, every write performed by `push_section` stays
within bounds (the out-of-bounds flag remains unset). -/
theorem bounded_depth_keeps_writes_in_bounds
    (ops : List SecOp) (st : Fixture)
    (hoob : st.sections.oob = false)
    (hdb : depthBounded st ops = true) :
    (runOps st ops).sections.oob = false := by
  induction ops generalizing st with
  | nil => simpa [runOps] using hoob
  | cons op rest ih =>
    simp only [depthBounded, Bool.and_eq_true, decide_eq_true_eq] at hdb
    obtain ⟨⟨h0, h32⟩, hrest⟩ := hdb
    have hstep : (applyOp st op).sections.oob = false := by
      cases op with
      | push n =>
        simp only [applyOp, push_section, SecState.push] at h0 h32
        have hc : decide (0 ≤ st.sections.current + 1 ∧ st.sections.current + 1 < 32)
            = true := by
          simp only [decide_eq_true_eq]
          exact ⟨by omega, by omega⟩
        simp [applyOp, push_section, SecState.push, hoob, hc]
      | pop =>
        simpa [applyOp, pop_section] using hoob
    simpa only [runOps] using ih (applyOp st op) hstep hrest

/-- C8 witness: a push followed by its pop keeps the depth in bounds and
leaves the out-of-bounds flag unset. -/
theorem bounded_depth_keeps_writes_in_bounds_witness :
    (initFixture.sections.oob = false
      ∧ depthBounded initFixture [SecOp.push "a", SecOp.pop] = true)
    ∧ (runOps initFixture [SecOp.push "a", SecOp.pop]).sections.oob = false :=
  ⟨⟨rfl, by decide⟩
  , bounded_depth_keeps_writes_in_bounds [SecOp.push "a", SecOp.pop] initFixture
      rfl (by decide)⟩

/-- C9: the range overload of `compare` dereferences the first element of
both operands before any end-of-range check, so its result is undefined
(the guarded-access error branch, embedded as `none`) exactly when either
operand is empty — including two empty sequences compared for equality —
and both operands being non-empty makes the comparison defined. -/
theorem compareRange_none_iff_empty_operand {α β : Type} (p : α → β → Bool)
    (A : List α) (B : List β) :
    compareRange p A B = none ↔ A = [] ∨ B = [] := by
  cases A with
  | nil => cases B <;> simp [compareRange]
  | cons a as =>
    cases B with
    | nil => simp [compareRange]
    | cons b bs =>
      have h := compareRange_cons_isSome p as a bs b
      constructor
      · intro hn
        rw [hn] at h
        simp at h
      · rintro (h | h) <;> simp_all

/-- C10: each assertion executed through the `test_op` macros increments
`cases` and `caseindex` by exactly one and `errors` by one on failure and
zero on success; consequently, after any fixture body run from the initial
state the counters satisfy `0 ≤ errors ≤ cases` and `caseindex = cases`. -/
theorem test_op_counter_invariant (v : Verbosity) (s : Stmt) (succ : Bool)
    (location op le re lv rv : String) (st : Fixture) :
    ((execStmt v (.assert succ location op le re lv rv) st).1.cases = st.cases + 1
      ∧ (execStmt v (.assert succ location op le re lv rv) st).1.caseindex
          = st.caseindex + 1
      ∧ (execStmt v (.assert succ location op le re lv rv) st).1.errors
          = st.errors + (if succ then 0 else 1))
    ∧ (0 ≤ (execStmt v s initFixture).1.errors
      ∧ (execStmt v s initFixture).1.errors ≤ (execStmt v s initFixture).1.cases
      ∧ (execStmt v s initFixture).1.caseindex = (execStmt v s initFixture).1.cases) := by
  constructor
  · refine ⟨?_, ?_, ?_⟩ <;> simp [execStmt, add_result_fst, add_case]
  · have hc := exec_cases v s initFixture
    have he := exec_errors v s initFixture
    have hi := exec_caseindex v s initFixture
    have h1 := countFails_nonneg s
    have h2 := countFails_le_countAsserts s
    have e0 : initFixture.errors = 0 := rfl
    have c0 : initFixture.cases = 0 := rfl
    have i0 : initFixture.caseindex = 0 := rfl
    omega

end Utest
